import Mathlib

/-!
Verification of the structural type canonicalization and shape-indexing core
(`src/utils/shape.ts` and `src/utils/declarations.ts`).

Shallow embedding conventions:
* A checked type (`ts.Type`) is a sealed, identity-compared handle; we model
  identity as a `Nat` id and the type-checker's query results for each id as a
  `TypeNode` record held in an `Env`.  The checker never changes during one
  run, so `Env` is read-only.
* `checker.typeToString` / `signatureToString` are modelled as strings stored
  in the node (`text`, `callSigs`, `constructSigs`); renderings are taken to be
  location-independent, so the `fallbackNode` parameter of the source is not
  modelled.
* `String.prototype.localeCompare` and JavaScript's default `Array.sort()` on
  strings are both modelled as code-point lexicographic comparison
  (`charsLt`); JS string sorts compare UTF-16 code units, which agrees with
  code points on the material handled here.
* `WeakMap<ts.Type, string>` is modelled as an association list `Memo`; `get`
  returns the most recent binding, `set` prepends.  JS `if (cached)` treats
  the empty string as a miss, which is modelled explicitly.
* TS `number` depth limits are modelled as `Nat`: every depth test in the
  source is `<= 0`, and no arithmetic distinguishes negative budgets from 0,
  so truncated subtraction is faithful.
-/

/-- Code-point comparison of char lists; models both `localeCompare` and the
default JS string sort order in this development. -/
def charsLt : List Char → List Char → Bool
  | [], [] => false
  | [], _ :: _ => true
  | _ :: _, [] => false
  | a :: as, b :: bs =>
    if a.toNat < b.toNat then true
    else if b.toNat < a.toNat then false
    else charsLt as bs

def strLtB (a b : String) : Bool := charsLt a.data b.data

/-- Whether `a ≤ b` in the modelled string order (used for JS comparator results ≤ 0). -/
def strLeB (a b : String) : Bool := ! charsLt b.data a.data

/-- Models `Array.prototype.join(sep)`. -/
def joinSep (sep : String) : List String → String
  | [] => ""
  | [s] => s
  | s :: rest => s ++ sep ++ joinSep sep rest

/-- Insert into a sorted list, keeping earlier elements first on ties
(JS `Array.sort` is stable). -/
def insertBy (le : α → α → Bool) (a : α) : List α → List α
  | [] => [a]
  | b :: bs => if le a b then a :: b :: bs else b :: insertBy le a bs

/-- Stable sort by a boolean `≤`; models `Array.prototype.sort(cmp)` for a
consistent comparator. -/
def sortBy (le : α → α → Bool) : List α → List α
  | [] => []
  | a :: as => insertBy le a (sortBy le as)

/-- Whether `needle` is a leading segment of `hay`. -/
def listIsPre : List Char → List Char → Bool
  | [], _ => true
  | _ :: _, [] => false
  | a :: as, b :: bs => a == b && listIsPre as bs

/-- Models `String.prototype.includes`, on char lists. -/
def listHasInfix (needle : List Char) : List Char → Bool
  | [] => listIsPre needle []
  | c :: rest => listIsPre needle (c :: rest) || listHasInfix needle rest

/-- The `PropertyShape` record of `src/utils/shape.ts`. -/
structure PropertyShape where
  name : String
  optional : Bool
  readonly : Bool
  typeKey : String
deriving DecidableEq

/-- One entry of the object-property rendering in `canonicalizeObject`. -/
def renderProp (p : PropertyShape) : String :=
  (if p.readonly then "readonly " else "") ++ p.name ++
    (if p.optional then "?" else "") ++ ":" ++ p.typeKey

/-- The brace-delimited, comma-joined body built by `canonicalizeObject`. -/
def renderProps (ps : List PropertyShape) : String :=
  "\x7b" ++ joinSep "," (ps.map renderProp) ++ "\x7d"

/-- A property symbol as the checker reports it: `getName()`, the
`SymbolFlags.Optional` bit, the result of `isReadonly` (some declaring node
carries a readonly modifier), and the identity of
`getTypeOfSymbolAtLocation(prop, decl)`. -/
structure PropSym where
  name : String
  optional : Bool
  readonlyFlag : Bool
  tyId : Nat
deriving DecidableEq

/-- The checker's answers about one type identity: `isUnion`/`isIntersection`
with the member list `types`, `getIndexInfoOfType` for string and number kinds
(the identity of the index value type), `getProperties()`,
`getCallSignatures()`/`getConstructSignatures()` already rendered by
`signatureToString(..).trim()`, the `typeToString` fallback rendering, whether
`aliasSymbol || aliasTypeArguments` holds, and the identity returned by
`getApparentType`. -/
structure TypeNode where
  isUnion : Bool := false
  isIntersection : Bool := false
  members : List Nat := []
  stringIndex : Option Nat := none
  numberIndex : Option Nat := none
  props : List PropSym := []
  callSigs : List String := []
  constructSigs : List String := []
  text : String := "any"
  hasAlias : Bool := false
  apparent : Nat := 0
deriving DecidableEq

def defaultTypeNode : TypeNode := {}

/-- The type-checker boundary: a table of type identities. -/
structure Env where
  types : List TypeNode
deriving DecidableEq

def Env.ty (env : Env) (t : Nat) : TypeNode := env.types.getD t defaultTypeNode

/-- The `WeakMap<ts.Type, string>` memo created per `canonicalizeType` call. -/
abbrev Memo := List (Nat × String)

def memoGet (memo : Memo) (t : Nat) : Option String :=
  (memo.find? (fun p => p.1 == t)).map (fun p => p.2)

def memoSet (memo : Memo) (t : Nat) (v : String) : Memo := (t, v) :: memo

/-- The alias-normalization step of `canonicalizeType` (`shape.ts` 68-74):
when enabled and the type carries alias information, use the apparent type
unless it is the same identity. -/
def resolveId (env : Env) (na : Bool) (t : Nat) : Nat :=
  let node := env.ty t
  if na && node.hasAlias && (node.apparent != t) then node.apparent else t

/-- Body of `collectProperties` (`shape.ts` 136-160) once the depth guard has
passed: empty property list gives `[]`, otherwise map each property symbol to
a fact (the property type canonicalized by `canonPrev`, one depth lower with a
fresh memo) and sort by name.  The source's `.filter` never removes anything
(the mapper always returns an object), so it is not modelled. -/
def collectPropertiesCore (canonPrev : Nat → String) (env : Env) (t : Nat) :
    List PropertyShape :=
  let props := (env.ty t).props
  if props.isEmpty then []
  else
    sortBy (fun a b => strLeB a.name b.name)
      (props.map (fun p =>
        { name := p.name, optional := p.optional, readonly := p.readonlyFlag,
          typeKey := canonPrev p.tyId }))

/-- One step of `next.types.map((t) => visit(t, depth - 1))` with the memo
threaded through the member visits in declaration order. -/
def visitFoldStep (recVisit : Nat → Memo → String × Memo)
    (acc : List String × Memo) (m : Nat) : List String × Memo :=
  let r := recVisit m acc.2
  (acc.1 ++ [r.1], r.2)

/-- The classification of `visit` (`shape.ts` 68-107) at a depth `> 0`:
resolve the alias and classify `next` in the source's priority order, threading
the memo through member visits.  The recursion is abstracted: `recVisit` is
`visit` at `depth - 1` (used by union/intersection members and index value
types) and `canonPrev` is the property-type canonicalizer `collectProperties`
uses — the exported `canonicalizeType` at `depth - 2` with a fresh memo, or
`none` when `depth - 1 <= 0` (`canonicalizeObject` is called with
`depth - 1`). -/
def visitStep (env : Env) (na : Bool) (recVisit : Nat → Memo → String × Memo)
    (canonPrev : Option (Nat → String)) (t : Nat) (memo : Memo) : String × Memo :=
  let next := resolveId env na t
  let nNext := env.ty next
  let objStr : String :=
    renderProps (match canonPrev with
      | none => []
      | some cp => collectPropertiesCore cp env next)
  if nNext.isUnion then
    let fold := nNext.members.foldl (visitFoldStep recVisit) ([], memo)
    ("union<" ++ joinSep "|" (sortBy strLeB fold.1) ++ ">", fold.2)
  else if nNext.isIntersection then
    let fold := nNext.members.foldl (visitFoldStep recVisit) ([], memo)
    ("intersection<" ++ joinSep "&" (sortBy strLeB fold.1) ++ ">", fold.2)
  else
    match nNext.stringIndex with
    | some st =>
      let s1 := recVisit st memo
      let s2 : String × Memo :=
        match nNext.numberIndex with
        | some nt => recVisit nt s1.2
        | none => ("", s1.2)
      ("object[string:" ++ s1.1 ++ ";number:" ++ s2.1 ++ "]" ++ objStr, s2.2)
    | none =>
      if !nNext.props.isEmpty then
        ("object" ++ objStr, memo)
      else if !nNext.callSigs.isEmpty || !nNext.constructSigs.isEmpty then
        ("callable<" ++ joinSep ";" (sortBy strLeB nNext.callSigs) ++ "|" ++
          joinSep ";" (sortBy strLeB nNext.constructSigs) ++ ">", memo)
      else (nNext.text, memo)

/-- Runs `visitStep` and then `memo.set(current, result)` (`shape.ts` 109):
the completed result is stored under the original, pre-resolution identity. -/
def visitBody (env : Env) (na : Bool) (recVisit : Nat → Memo → String × Memo)
    (canonPrev : Option (Nat → String)) (t : Nat) (memo : Memo) : String × Memo :=
  let step := visitStep env na recVisit canonPrev t memo
  (step.1, memoSet step.2 t step.1)

/-- The recursive `visit` closure of `canonicalizeType` (`shape.ts` 60-111),
with the memo threaded explicitly.  Depth `0` models `depth <= 0` (line 61).
The memo lookup (lines 65-66) treats a cached empty string as a miss, as JS
truthiness does.  Property types inside `canonicalizeObject` are canonicalized
by the exported `canonicalizeType`, i.e. starting from a fresh memo. -/
def visit (env : Env) (na : Bool) : Nat → Nat → Memo → String × Memo
  | 0, _, memo => ("#DepthLimit", memo)
  | d + 1, t, memo =>
    let compute : Unit → String × Memo := fun _ =>
      visitBody env na (fun t' m' => visit env na d t' m')
        (match d with
          | 0 => none
          | e + 1 => some (fun id => (visit env na e id []).1)) t memo
    match memoGet memo t with
    | some s => if s = "" then compute () else (s, memo)
    | none => compute ()

/-- Exported `canonicalizeType` (`shape.ts` 54-129): runs `visit` at the given
depth limit with a fresh memo and returns the key. -/
def canonicalizeType (env : Env) (na : Bool) (depthLimit : Nat) (t : Nat) : String :=
  (visit env na depthLimit t []).1

/-- The exported `collectProperties` (`shape.ts` 131-161): empty on an exhausted depth
budget, otherwise the sorted facts with property types canonicalized at
`depthLimit - 1`. -/
def collectProperties (env : Env) (na : Bool) (depthLimit : Nat) (t : Nat) :
    List PropertyShape :=
  match depthLimit with
  | 0 => []
  | e + 1 => collectPropertiesCore (fun id => canonicalizeType env na e id) env t

/-- The closure `canonicalizeObject` (`shape.ts` 113-126) as a standalone function of the
depth it receives (`depth - 1` at its call sites). -/
def canonicalizeObject (env : Env) (na : Bool) (d : Nat) (t : Nat) : String :=
  renderProps (collectProperties env na d t)

/-- The `DeclarationShape` sum type of `src/utils/shape.ts`. -/
inductive DeclarationShape where
  | obj (canonical : String) (properties : List PropertyShape)
  | other (canonical : String)
deriving DecidableEq

def DeclarationShape.canonical : DeclarationShape → String
  | .obj c _ => c
  | .other c => c

/-- A symbol as `describeDeclaration` consumes it: `getDeclarations()?.[0]`
either fails (`none`) or designates a node whose `getTypeAtLocation` is the
given type identity. -/
structure SymbolRef where
  declTy : Option Nat
deriving DecidableEq

/-- The exported `describeDeclaration` (`shape.ts` 25-50): `none` without a declaration;
otherwise the canonical key at `depthLimit` plus the properties collected at
`depthLimit - 1`, an object shape iff any property was collected. -/
def describeDeclaration (env : Env) (na : Bool) (depthLimit : Nat) (sym : SymbolRef) :
    Option DeclarationShape :=
  match sym.declTy with
  | none => none
  | some t =>
    let canonical := canonicalizeType env na depthLimit t
    let properties := collectProperties env na (depthLimit - 1) t
    if properties.length ≠ 0 then some (.obj canonical properties)
    else some (.other canonical)

/-- A declaration-bearing node as `getProgramState`'s walk sees it: whether it
is an `InterfaceDeclaration` (vs a `TypeAliasDeclaration`), whether `node.name`
exists, the result of `getSymbolAtLocation(node.name)` (`none` = unresolvable,
`some` = symbol identity), the symbol's `describeDeclaration` input, the
containing file's name (already `normalizePath`-normalized: on POSIX
`normalizePath` is the identity) and `isDeclarationFile` flag, and `node.pos`. -/
structure DeclNode where
  isInterface : Bool
  hasName : Bool := true
  symId : Option Nat
  declTy : Option Nat
  filePath : String
  pos : Nat
  isDeclFile : Bool := false
deriving DecidableEq

/-- The `DeclarationInfo` record of `src/utils/declarations.ts`; the `symbol`, `node` and
`sourceFile` handles are modelled by the symbol identity and the source
location used by `compareDeclarationInfo`. -/
structure DeclarationInfo where
  symId : Nat
  isInterface : Bool
  filePath : String
  pos : Nat
  shape : DeclarationShape
deriving DecidableEq

/-- The comparator `compareDeclarationInfo` (`declarations.ts` 71-78): `localeCompare` on the
normalized file names when they differ (modelled as ±1 by code-point order),
else the position difference. -/
def compareDeclarationInfo (a b : DeclarationInfo) : Int :=
  if a.filePath ≠ b.filePath then
    (if strLtB a.filePath b.filePath then -1 else 1)
  else (a.pos : Int) - (b.pos : Int)

/-- The comparator-result-`≤ 0` relation used when sorting with
`compareDeclarationInfo`. -/
def declLE (a b : DeclarationInfo) : Bool := decide (compareDeclarationInfo a b ≤ 0)

/-- The file filter `shouldSkipSourceFile` (`declarations.ts` 80-84). -/
def shouldSkipSourceFile (n : DeclNode) : Bool :=
  n.isDeclFile || listHasInfix "/node_modules/".data n.filePath.data

/-- The `byCanonical` insertion (`declarations.ts` 42-49): push onto the existing
bucket of the key, else create a new bucket; JS `Map` keeps key insertion
order. -/
def bucketsAdd (buckets : List (String × List DeclarationInfo)) (k : String)
    (info : DeclarationInfo) : List (String × List DeclarationInfo) :=
  match buckets with
  | [] => [(k, [info])]
  | (k', l) :: rest =>
    if k' = k then (k', l ++ [info]) :: rest else (k', l) :: bucketsAdd rest k info

/-- The `ProgramState` record of `src/utils/declarations.ts` (the `byNode` map and the
`checker` handle carry no content the claims touch and are not modelled). -/
structure ProgramState where
  byCanonical : List (String × List DeclarationInfo)
  interfaceInfos : List DeclarationInfo
deriving DecidableEq

/-- One step of the walk in `getProgramState` (`declarations.ts` 30-58): skip
skipped files, nameless nodes, unresolvable symbols and `null` shapes; record
object shapes under their canonical key; record interface declarations in
`interfaceInfos`. `describeDeclaration` runs with its defaults
(`depthLimit = 8`, `normalizeAlias = true`). -/
def programStep (env : Env) (st : List (String × List DeclarationInfo) × List DeclarationInfo)
    (n : DeclNode) : List (String × List DeclarationInfo) × List DeclarationInfo :=
  if shouldSkipSourceFile n then st
  else if !n.hasName then st
  else
    match n.symId with
    | none => st
    | some sid =>
      match describeDeclaration env true 8 { declTy := n.declTy } with
      | none => st
      | some shape =>
        let info : DeclarationInfo :=
          { symId := sid, isInterface := n.isInterface, filePath := n.filePath,
            pos := n.pos, shape := shape }
        let buckets :=
          match shape with
          | .obj c _ => bucketsAdd st.1 c info
          | .other _ => st.1
        let ifaces := if n.isInterface then st.2 ++ [info] else st.2
        (buckets, ifaces)

/-- The indexer `getProgramState` (`declarations.ts` 21-69) on the walked node list: build
the indices, then sort every canonical bucket and `interfaceInfos` with
`compareDeclarationInfo`.  (The per-program `WeakMap` cache only memoizes this
pure computation and is not modelled.) -/
def getProgramState (env : Env) (nodes : List DeclNode) : ProgramState :=
  let built := nodes.foldl (programStep env) ([], [])
  { byCanonical := built.1.map (fun p => (p.1, sortBy declLE p.2)),
    interfaceInfos := sortBy declLE built.2 }

/-- The subset test `isSubset` (`declarations.ts` 134-144): every base fact occurs
field-for-field identically among the derived facts. -/
def isSubset (base derived : List PropertyShape) : Bool :=
  base.all (fun p =>
    derived.any (fun c =>
      c.name == p.name && c.optional == p.optional &&
        c.readonly == p.readonly && c.typeKey == p.typeKey))

/-- The candidate loop of `findBestInterfaceBase` (`declarations.ts` 99-131),
with the running `best` made explicit. -/
def findBestLoop (target : DeclarationInfo) (tp : List PropertyShape) :
    Option DeclarationInfo → List DeclarationInfo → Option DeclarationInfo
  | best, [] => best
  | best, c :: rest =>
    if c.symId = target.symId then findBestLoop target tp best rest
    else
      match c.shape with
      | .other _ => findBestLoop target tp best rest
      | .obj _ cp =>
        if cp.length = 0 then findBestLoop target tp best rest
        else if tp.length ≤ cp.length then findBestLoop target tp best rest
        else if !isSubset cp tp then findBestLoop target tp best rest
        else
          match best with
          | none => findBestLoop target tp (some c) rest
          | some b =>
            match b.shape with
            | .other _ => findBestLoop target tp (some c) rest
            | .obj _ bp =>
              if bp.length < cp.length then findBestLoop target tp (some c) rest
              else if cp.length = bp.length ∧ compareDeclarationInfo c b < 0 then
                findBestLoop target tp (some c) rest
              else findBestLoop target tp (some b) rest

/-- The base finder `findBestInterfaceBase` (`declarations.ts` 90-132). -/
def findBestInterfaceBase (target : DeclarationInfo)
    (interfaceInfos : List DeclarationInfo) : Option DeclarationInfo :=
  match target.shape with
  | .other _ => none
  | .obj _ tp =>
    if tp.length = 0 then none
    else findBestLoop target tp none interfaceInfos

/-- Number of properties a record exposes for base comparison (`0` for an
`OtherShape`, which never qualifies). -/
def propCount (c : DeclarationInfo) : Nat :=
  match c.shape with
  | .obj _ p => p.length
  | .other _ => 0

/-- The qualification condition of claim C1, stated from the spec's words:
a candidate is a structural base for a target with property list `tp` iff it
is a different symbol, has an object shape with a non-empty property list
strictly smaller than `tp`, and its facts form a subset of `tp`. -/
def Qualifies (target : DeclarationInfo) (tp : List PropertyShape)
    (c : DeclarationInfo) : Prop :=
  c.symId ≠ target.symId ∧
    ∃ cc cp, c.shape = .obj cc cp ∧ cp ≠ [] ∧ cp.length < tp.length ∧
      isSubset cp tp = true

instance (target : DeclarationInfo) (tp : List PropertyShape) (c : DeclarationInfo) :
    Decidable (Qualifies target tp c) := by
  unfold Qualifies
  cases h : c.shape with
  | obj cc cp =>
    refine decidable_of_iff (c.symId ≠ target.symId ∧ cp ≠ [] ∧ cp.length < tp.length ∧
      isSubset cp tp = true) ?_
    constructor
    · rintro ⟨h1, h2, h3, h4⟩; exact ⟨h1, cc, cp, rfl, h2, h3, h4⟩
    · rintro ⟨h1, cc', cp', heq, h2, h3, h4⟩
      cases heq; exact ⟨h1, h2, h3, h4⟩
  | other cc =>
    refine decidable_of_iff False ?_
    constructor
    · intro h; exact h.elim
    · rintro ⟨-, cc', cp', heq, -⟩; cases heq

/-- The selection criterion of claim C1, from the spec's words: `r` is at
least as good a base as `c` — more properties, or equally many and no later
in declaration order. -/
def BetterEq (r c : DeclarationInfo) : Prop :=
  propCount c < propCount r ∨
    (propCount c = propCount r ∧ compareDeclarationInfo r c ≤ 0)

def shapeIsObject : DeclarationShape → Bool
  | .obj _ _ => true
  | .other _ => false

/-- No type in the table renders, as fallback text, the literal sentinel
(no TS `typeToString` output is the bare string `#DepthLimit`). -/
def EnvTextOK (env : Env) : Prop := ∀ id, (env.ty id).text ≠ "#DepthLimit"

/-- Every key the memo holds was stored as a completed classification result,
hence is never the sentinel. -/
def MemoOK (memo : Memo) : Prop := ∀ p ∈ memo, p.2 ≠ "#DepthLimit"

/-- After alias resolution the type is classified into a branch that does not
recurse through the shared traversal memo: not a union, not an intersection
and without a string index signature (object properties are canonicalized
with fresh memos, callables and the textual fallback do not recurse). -/
def SimpleType (env : Env) (na : Bool) (t : Nat) : Prop :=
  (env.ty (resolveId env na t)).isUnion = false ∧
    (env.ty (resolveId env na t)).isIntersection = false ∧
    (env.ty (resolveId env na t)).stringIndex = none

/-- A self-referential object type: type 0 has the single property `a` whose
type is type 0 itself (`interface T \x7b a: T \x7d`). -/
def envSelfRef : Env := ⟨[{ props := [⟨"a", false, false, 0⟩], text := "T" }]⟩

/-- Union order-dependence scenario: type 0 is a primitive rendered `n`,
type 1 is the union `union<0>`, type 2 the intersection `intersection<1>`,
and types 3/4 are the unions with members `[2, 1]` resp. `[1, 2]` — the same
member set in the two declaration orders. -/
def envUnionMemo : Env := ⟨[
  { text := "n" },
  { isUnion := true, members := [0] },
  { isIntersection := true, members := [1] },
  { isUnion := true, members := [2, 1] },
  { isUnion := true, members := [1, 2] }]⟩

/-- Two primitives plus the object types `\x7ba: string; b?: number\x7d`
with the two properties declared in the orders `[a, b]` (type 2) and
`[b, a]` (type 3). -/
def envTwoProps : Env := ⟨[
  { text := "string" },
  { text := "number" },
  { props := [⟨"a", false, false, 0⟩, ⟨"b", true, false, 1⟩], text := "AB" },
  { props := [⟨"b", true, false, 1⟩, ⟨"a", false, false, 0⟩], text := "BA" }]⟩

/-- A type with only a numeric index signature (`\x7b [x: number]: string \x7d`)
and no string index signature; its fallback rendering is stored in `text`. -/
def envNumIndex : Env := ⟨[
  { numberIndex := some 1, text := "\x7b [x: number]: string; \x7d" },
  { text := "string" }]⟩

/-- A type with both index signatures and one own property. -/
def envBothIndex : Env := ⟨[
  { stringIndex := some 1, numberIndex := some 2,
    props := [⟨"a", false, false, 1⟩], text := "idx2" },
  { text := "string" },
  { text := "number" }]⟩

/-- A union of two distinct primitive member types in both orders
(types 2 and 3). -/
def envUnionSimple : Env := ⟨[
  { text := "string" },
  { text := "number" },
  { isUnion := true, members := [0, 1] },
  { isUnion := true, members := [1, 0] }]⟩

/-- An empty interface: its checked type (type 0) has no properties, no
signatures and no indexes, so `describeDeclaration` yields an `OtherShape`. -/
def envEmptyIface : Env := ⟨[{ text := "E" }]⟩

/-- One interface declaration node bound to the empty-interface type. -/
def nodesEmptyIface : List DeclNode :=
  [{ isInterface := true, symId := some 1, declTy := some 0,
     filePath := "file1.ts", pos := 4 }]

/-- Three interface declarations of the identical object type (type 2 of
`envTwoProps`), walked in the order `file1.ts:10`, `file2.ts:5`,
`file1.ts:50`. -/
def nodesThreeFiles : List DeclNode := [
  { isInterface := true, symId := some 1, declTy := some 2,
    filePath := "file1.ts", pos := 10 },
  { isInterface := true, symId := some 2, declTy := some 2,
    filePath := "file2.ts", pos := 5 },
  { isInterface := true, symId := some 3, declTy := some 2,
    filePath := "file1.ts", pos := 50 }]

/-- Record for `interface Base \x7b a: string \x7d`. -/
def baseInfo : DeclarationInfo :=
  { symId := 1, isInterface := true, filePath := "file1.ts", pos := 0,
    shape := .obj "object\x7ba:string\x7d" [⟨"a", false, false, "string"⟩] }

/-- Record for `interface Derived \x7b a: string; b: number \x7d`. -/
def derivedInfo : DeclarationInfo :=
  { symId := 2, isInterface := true, filePath := "file1.ts", pos := 40,
    shape := .obj "object\x7ba:string,b:number\x7d"
      [⟨"a", false, false, "string"⟩, ⟨"b", false, false, "number"⟩] }

/-- A declaration whose shape is not an object shape. -/
def otherInfo : DeclarationInfo :=
  { symId := 3, isInterface := false, filePath := "file2.ts", pos := 0,
    shape := .other "number" }

/-- The `canonPrev` argument `visit` passes at depth `d + 1`: the exported
`canonicalizeType` at one depth lower than `canonicalizeObject` receives, or
`none` once the budget is gone. -/
def canonPrevAt (env : Env) (na : Bool) : Nat → Option (Nat → String)
  | 0 => none
  | e + 1 => some (fun id => canonicalizeType env na e id)

theorem charEqOfToNat {c d : Char} (h : c.toNat = d.toNat) : c = d :=
  Char.eq_of_val_eq (UInt32.ext h)

theorem charsLt_irrefl : ∀ l, charsLt l l = false
  | [] => rfl
  | a :: as => by simp [charsLt, charsLt_irrefl as]

theorem charsLt_asymm : ∀ x y, charsLt x y = true → charsLt y x = false
  | [], [], h => by simp [charsLt] at h
  | [], _ :: _, _ => rfl
  | _ :: _, [], h => by simp [charsLt] at h
  | a :: as, b :: bs, h => by
    simp only [charsLt] at h ⊢
    by_cases h1 : a.toNat < b.toNat
    · simp [h1, show ¬ b.toNat < a.toNat by omega]
    · by_cases h2 : b.toNat < a.toNat
      · simp [h1, h2] at h
      · simp [h1, h2] at h ⊢
        exact charsLt_asymm as bs h

theorem charsLt_trans : ∀ x y z, charsLt x y = true → charsLt y z = true →
    charsLt x z = true
  | [], _, _ :: _, _, _ => rfl
  | [], [], [], _, h2 => by simp [charsLt] at h2
  | [], _ :: _, [], _, h2 => by simp [charsLt] at h2
  | _ :: _, [], _, h1, _ => by simp [charsLt] at h1
  | _ :: _, _ :: _, [], _, h2 => by simp [charsLt] at h2
  | a :: as, b :: bs, c :: cs, h1, h2 => by
    simp only [charsLt] at h1 h2 ⊢
    by_cases hab : a.toNat < b.toNat <;> by_cases hbc : b.toNat < c.toNat
    · simp [show a.toNat < c.toNat by omega]
    · by_cases hcb : c.toNat < b.toNat
      · simp [hbc, hcb] at h2
      · have : b.toNat = c.toNat := by omega
        simp [show a.toNat < c.toNat by omega]
    · by_cases hba : b.toNat < a.toNat
      · simp [hab, hba] at h1
      · have : a.toNat = b.toNat := by omega
        simp [show a.toNat < c.toNat by omega]
    · by_cases hba : b.toNat < a.toNat
      · simp [hab, hba] at h1
      · by_cases hcb : c.toNat < b.toNat
        · simp [hbc, hcb] at h2
        · have hab' : a.toNat = b.toNat := by omega
          have hbc' : b.toNat = c.toNat := by omega
          simp [hab, hba, hab', hbc', show ¬ a.toNat < c.toNat by omega,
            show ¬ c.toNat < a.toNat by omega] at h1 h2 ⊢
          exact charsLt_trans as bs cs h1 h2

theorem charsLt_connex : ∀ x y, charsLt x y = false → charsLt y x = false → x = y
  | [], [], _, _ => rfl
  | [], _ :: _, h1, _ => by simp [charsLt] at h1
  | _ :: _, [], _, h2 => by simp [charsLt] at h2
  | a :: as, b :: bs, h1, h2 => by
    simp only [charsLt] at h1 h2
    by_cases hab : a.toNat < b.toNat
    · simp [hab] at h1
    · by_cases hba : b.toNat < a.toNat
      · simp [hab, hba] at h2
      · simp [hab, hba] at h1 h2
        have : a = b := charEqOfToNat (by omega)
        rw [this, charsLt_connex as bs h1 h2]

theorem stringDataInj : ∀ {a b : String}, a.data = b.data → a = b
  | ⟨_⟩, ⟨_⟩, h => congrArg String.mk h

theorem strLeB_total (a b : String) : strLeB a b = true ∨ strLeB b a = true := by
  unfold strLeB
  by_cases h : charsLt b.data a.data = true
  · right; simp [charsLt_asymm _ _ h]
  · left; simp at h; simp [h]

theorem strLeB_trans {a b c : String} (h1 : strLeB a b = true)
    (h2 : strLeB b c = true) : strLeB a c = true := by
  unfold strLeB at h1 h2 ⊢
  simp only [Bool.not_eq_true'] at h1 h2 ⊢
  by_cases hca : charsLt c.data a.data = true
  · by_cases hab : charsLt a.data b.data = true
    · have := charsLt_trans _ _ _ hca hab
      rw [this] at h2; cases h2
    · simp at hab
      have : a.data = b.data := charsLt_connex _ _ hab h1
      rw [← this] at h2; rw [h2] at hca; cases hca
  · simpa using hca

theorem strLeB_antisymm {a b : String} (h1 : strLeB a b = true)
    (h2 : strLeB b a = true) : a = b := by
  unfold strLeB at h1 h2
  simp only [Bool.not_eq_true'] at h1 h2
  exact stringDataInj (charsLt_connex _ _ h2 h1)

theorem strLtB_connex {a b : String} (h : a ≠ b) :
    strLtB a b = true ∨ strLtB b a = true := by
  unfold strLtB
  by_cases h1 : charsLt a.data b.data = true
  · exact Or.inl h1
  · by_cases h2 : charsLt b.data a.data = true
    · exact Or.inr h2
    · simp at h1 h2
      exact absurd (stringDataInj (charsLt_connex _ _ h1 h2)) h

theorem strLtB_asymm {a b : String} (h : strLtB a b = true) : strLtB b a = false :=
  charsLt_asymm _ _ h

theorem strLtB_trans {a b c : String} (h1 : strLtB a b = true)
    (h2 : strLtB b c = true) : strLtB a c = true :=
  charsLt_trans _ _ _ h1 h2

theorem mem_insertBy (le : α → α → Bool) (a x : α) :
    ∀ l, x ∈ insertBy le a l ↔ x = a ∨ x ∈ l
  | [] => by simp [insertBy]
  | b :: bs => by
    simp only [insertBy]
    by_cases h : le a b = true
    · rw [if_pos h]
      simp only [List.mem_cons]
    · rw [if_neg h]
      simp only [List.mem_cons, mem_insertBy le a x bs]
      tauto

theorem pairwise_insertBy (le : α → α → Bool)
    (htot : ∀ x y, le x y = true ∨ le y x = true)
    (htrans : ∀ x y z, le x y = true → le y z = true → le x z = true) (a : α) :
    ∀ l, List.Pairwise (fun x y => le x y = true) l →
      List.Pairwise (fun x y => le x y = true) (insertBy le a l)
  | [], _ => List.pairwise_singleton _ a
  | b :: bs, h => by
    rcases List.pairwise_cons.mp h with ⟨hb, hbs⟩
    simp only [insertBy]
    by_cases hab : le a b = true
    · rw [if_pos hab]
      refine List.pairwise_cons.mpr ⟨?_, h⟩
      intro y hy
      rcases List.mem_cons.mp hy with rfl | hy
      · exact hab
      · exact htrans _ _ _ hab (hb _ hy)
    · rw [if_neg hab]
      refine List.pairwise_cons.mpr ⟨?_, pairwise_insertBy le htot htrans a bs hbs⟩
      intro y hy
      rcases (mem_insertBy le a y bs).mp hy with hya | hy
      · rw [hya]
        rcases htot a b with h' | h'
        · exact absurd h' hab
        · exact h'
      · exact hb _ hy

theorem pairwise_sortBy (le : α → α → Bool)
    (htot : ∀ x y, le x y = true ∨ le y x = true)
    (htrans : ∀ x y z, le x y = true → le y z = true → le x z = true) :
    ∀ l, List.Pairwise (fun x y => le x y = true) (sortBy le l)
  | [] => List.Pairwise.nil
  | a :: as => pairwise_insertBy le htot htrans a _ (pairwise_sortBy le htot htrans as)

theorem mem_sortBy (le : α → α → Bool) (x : α) :
    ∀ l, x ∈ sortBy le l ↔ x ∈ l
  | [] => Iff.rfl
  | a :: as => by
    simp only [sortBy, mem_insertBy le a x (sortBy le as), mem_sortBy le x as,
      List.mem_cons]

theorem sortBy_pair_comm (le : α → α → Bool)
    (htot : ∀ x y, le x y = true ∨ le y x = true)
    (hanti : ∀ x y, le x y = true → le y x = true → x = y) (x y : α) :
    sortBy le [x, y] = sortBy le [y, x] := by
  simp only [sortBy, insertBy]
  by_cases h1 : le x y = true <;> by_cases h2 : le y x = true
  · have hxy := hanti x y h1 h2
    subst hxy
    rfl
  · rw [if_pos h1, if_neg h2]
  · rw [if_neg h1, if_pos h2]
  · rcases htot x y with h | h
    · exact absurd h h1
    · exact absurd h h2

theorem cmp_le_iff {a b : DeclarationInfo} :
    compareDeclarationInfo a b ≤ 0 ↔
      (strLtB a.filePath b.filePath = true ∨
        (a.filePath = b.filePath ∧ a.pos ≤ b.pos)) := by
  unfold compareDeclarationInfo
  by_cases h : a.filePath = b.filePath
  · rw [if_neg (by simp [h])]
    constructor
    · intro hle
      exact Or.inr ⟨h, by omega⟩
    · rintro (hlt | ⟨-, hp⟩)
      · rw [h] at hlt
        rw [show strLtB b.filePath b.filePath = false from charsLt_irrefl _] at hlt
        exact Bool.noConfusion hlt
      · omega
  · rw [if_pos (by simp [h])]
    constructor
    · intro hle
      by_cases hlt : strLtB a.filePath b.filePath = true
      · exact Or.inl hlt
      · rw [if_neg hlt] at hle
        omega
    · rintro (hlt | ⟨heq, -⟩)
      · rw [if_pos hlt]
        omega
      · exact absurd heq h

theorem cmp_antisymm (a b : DeclarationInfo) :
    compareDeclarationInfo a b = -(compareDeclarationInfo b a) := by
  unfold compareDeclarationInfo
  by_cases h : a.filePath = b.filePath
  · simp only [h, ne_eq, not_true_eq_false, ite_false, if_neg]
    omega
  · have h' : b.filePath ≠ a.filePath := fun hx => h hx.symm
    simp only [ne_eq, h, h', not_false_eq_true, if_pos, ite_true]
    rcases strLtB_connex h with hlt | hlt
    · rw [hlt, strLtB_asymm hlt]
      norm_num
    · rw [hlt, strLtB_asymm hlt]
      norm_num

theorem cmp_le_trans {a b c : DeclarationInfo}
    (h1 : compareDeclarationInfo a b ≤ 0) (h2 : compareDeclarationInfo b c ≤ 0) :
    compareDeclarationInfo a c ≤ 0 := by
  rcases cmp_le_iff.mp h1 with hab | ⟨hab, hpab⟩ <;>
    rcases cmp_le_iff.mp h2 with hbc | ⟨hbc, hpbc⟩
  · exact cmp_le_iff.mpr (Or.inl (strLtB_trans hab hbc))
  · exact cmp_le_iff.mpr (Or.inl (hbc ▸ hab))
  · exact cmp_le_iff.mpr (Or.inl (hab ▸ hbc))
  · exact cmp_le_iff.mpr (Or.inr ⟨hab.trans hbc, le_trans hpab hpbc⟩)

theorem cmp_total (a b : DeclarationInfo) :
    compareDeclarationInfo a b ≤ 0 ∨ compareDeclarationInfo b a ≤ 0 := by
  by_cases h : compareDeclarationInfo a b ≤ 0
  · exact Or.inl h
  · right
    rw [cmp_antisymm b a]
    omega

theorem declLE_total (a b : DeclarationInfo) : declLE a b = true ∨ declLE b a = true := by
  unfold declLE
  rcases cmp_total a b with h | h
  · exact Or.inl (decide_eq_true h)
  · exact Or.inr (decide_eq_true h)

theorem declLE_trans (a b c : DeclarationInfo) (h1 : declLE a b = true)
    (h2 : declLE b c = true) : declLE a c = true :=
  decide_eq_true (cmp_le_trans (of_decide_eq_true h1) (of_decide_eq_true h2))

theorem BetterEq_trans {r c b : DeclarationInfo} (h1 : BetterEq r c)
    (h2 : BetterEq c b) : BetterEq r b := by
  rcases h1 with h1 | ⟨h1, h1c⟩ <;> rcases h2 with h2 | ⟨h2, h2c⟩
  · exact Or.inl (lt_trans h2 h1)
  · exact Or.inl (h2 ▸ h1)
  · exact Or.inl (h1 ▸ h2)
  · exact Or.inr ⟨h2.trans h1, cmp_le_trans h1c h2c⟩

theorem memoGet_value_mem {memo : Memo} {t : Nat} {s : String}
    (h : memoGet memo t = some s) : ∃ k, (k, s) ∈ memo := by
  unfold memoGet at h
  rcases hf : memo.find? (fun p => p.1 == t) with - | p
  · rw [hf] at h
    cases h
  · rw [hf] at h
    simp only [Option.map_some'] at h
    cases h
    exact ⟨p.1, by
      have := List.mem_of_find?_eq_some hf
      simpa using this⟩

theorem memoGet_set_self (memo : Memo) (t : Nat) (v : String) :
    memoGet (memoSet memo t v) t = some v := by
  simp [memoGet, memoSet, List.find?]

theorem memoGet_set_other {t u : Nat} (memo : Memo) (v : String) (h : t ≠ u) :
    memoGet (memoSet memo t v) u = memoGet memo u := by
  simp only [memoGet, memoSet, List.find?]
  have : (t == u) = false := by simpa using h
  rw [this]

theorem memoOK_set {memo : Memo} {t : Nat} {v : String} (hm : MemoOK memo)
    (hv : v ≠ "#DepthLimit") : MemoOK (memoSet memo t v) := by
  intro p hp
  rcases List.mem_cons.mp hp with rfl | hp
  · exact hv
  · exact hm p hp

theorem dataAppend (a b : String) : (a ++ b).data = a.data ++ b.data := rfl

theorem append_ne_of_head {a : String} (b : String) {c : Char}
    (h : a.data.head? = some c) (hc : c ≠ '#') : a ++ b ≠ "#DepthLimit" := by
  intro he
  have hd : a.data ++ b.data = "#DepthLimit".data := by
    rw [← dataAppend]
    exact congrArg String.data he
  have hh : (a.data ++ b.data).head? = some '#' := by
    rw [hd]
    rfl
  cases hx : a.data with
  | nil => rw [hx] at h; cases h
  | cons c' tl =>
    rw [hx] at h hh
    simp only [List.head?] at h
    cases h
    simp only [List.cons_append, List.head?, Option.some.injEq] at hh
    exact hc hh

theorem visit_zero (env : Env) (na : Bool) (t : Nat) (memo : Memo) :
    visit env na 0 t memo = ("#DepthLimit", memo) := rfl

theorem visit_succ (env : Env) (na : Bool) (d t : Nat) (memo : Memo) :
    visit env na (d + 1) t memo =
      match memoGet memo t with
      | some s =>
        if s = "" then
          visitBody env na (fun t' m' => visit env na d t' m')
            (canonPrevAt env na d) t memo
        else (s, memo)
      | none =>
        visitBody env na (fun t' m' => visit env na d t' m')
          (canonPrevAt env na d) t memo := by
  cases d <;> rfl

theorem visit_succ_miss {memo : Memo} {t : Nat} (env : Env) (na : Bool) (d : Nat)
    (h : memoGet memo t = none) :
    visit env na (d + 1) t memo =
      visitBody env na (fun t' m' => visit env na d t' m')
        (canonPrevAt env na d) t memo := by
  rw [visit_succ, h]

theorem visit_succ_hit {memo : Memo} {t : Nat} {s : String} (env : Env) (na : Bool)
    (d : Nat) (h : memoGet memo t = some s) (hs : s ≠ "") :
    visit env na (d + 1) t memo = (s, memo) := by
  rw [visit_succ, h]
  simp [hs]

theorem visit_succ_empty {memo : Memo} {t : Nat} (env : Env) (na : Bool) (d : Nat)
    (h : memoGet memo t = some "") :
    visit env na (d + 1) t memo =
      visitBody env na (fun t' m' => visit env na d t' m')
        (canonPrevAt env na d) t memo := by
  rw [visit_succ, h]
  simp

theorem foldl_visitFoldStep_memoOK {recVisit : Nat → Memo → String × Memo}
    (hrec : ∀ m mm, MemoOK mm → MemoOK (recVisit m mm).2) :
    ∀ (members : List Nat) (p : List String × Memo), MemoOK p.2 →
      MemoOK ((members.foldl (visitFoldStep recVisit) p).2)
  | [], _, hp => hp
  | m :: ms, p, hp => by
    simp only [List.foldl]
    exact foldl_visitFoldStep_memoOK hrec ms _ (hrec m p.2 hp)

theorem visitStep_good (env : Env) (na : Bool)
    (recVisit : Nat → Memo → String × Memo) (canonPrev : Option (Nat → String))
    (t : Nat) (memo : Memo) (H : EnvTextOK env)
    (hrec : ∀ m mm, MemoOK mm → MemoOK (recVisit m mm).2) (hm : MemoOK memo) :
    (visitStep env na recVisit canonPrev t memo).1 ≠ "#DepthLimit" ∧
      MemoOK (visitStep env na recVisit canonPrev t memo).2 := by
  unfold visitStep
  simp only []
  by_cases hu : (env.ty (resolveId env na t)).isUnion = true
  · rw [if_pos hu]
    exact ⟨append_ne_of_head _ rfl (by decide),
      foldl_visitFoldStep_memoOK hrec _ _ hm⟩
  · rw [if_neg hu]
    by_cases hi : (env.ty (resolveId env na t)).isIntersection = true
    · rw [if_pos hi]
      exact ⟨append_ne_of_head _ rfl (by decide),
        foldl_visitFoldStep_memoOK hrec _ _ hm⟩
    · rw [if_neg hi]
      rcases hs : (env.ty (resolveId env na t)).stringIndex with - | st
    

      · simp only []
        by_cases hp : (!(env.ty (resolveId env na t)).props.isEmpty) = true
        · rw [if_pos hp]
          exact ⟨append_ne_of_head _ rfl (by decide), hm⟩
        · rw [if_neg hp]
          by_cases hc : ((!(env.ty (resolveId env na t)).callSigs.isEmpty ||
              !(env.ty (resolveId env na t)).constructSigs.isEmpty)) = true
          · rw [if_pos hc]
            exact ⟨append_ne_of_head _ rfl (by decide), hm⟩
          · rw [if_neg hc]
            exact ⟨H (resolveId env na t), hm⟩
      · simp only []
        rcases hn : (env.ty (resolveId env na t)).numberIndex with - | nt
        · simp only []
          exact ⟨append_ne_of_head _ rfl (by decide), hrec st memo hm⟩
        · simp only []
          exact ⟨append_ne_of_head _ rfl (by decide),
            hrec nt _ (hrec st memo hm)⟩

theorem visitBody_good (env : Env) (na : Bool)
    (recVisit : Nat → Memo → String × Memo) (canonPrev : Option (Nat → String))
    (t : Nat) (memo : Memo) (H : EnvTextOK env)
    (hrec : ∀ m mm, MemoOK mm → MemoOK (recVisit m mm).2) (hm : MemoOK memo) :
    (visitBody env na recVisit canonPrev t memo).1 ≠ "#DepthLimit" ∧
      MemoOK (visitBody env na recVisit canonPrev t memo).2 := by
  have hstep := visitStep_good env na recVisit canonPrev t memo H hrec hm
  unfold visitBody
  exact ⟨hstep.1, memoOK_set hstep.2 hstep.1⟩

theorem visit_good (env : Env) (na : Bool) (H : EnvTextOK env) :
    ∀ d t memo, MemoOK memo →
      (d ≠ 0 → (visit env na d t memo).1 ≠ "#DepthLimit") ∧
        MemoOK (visit env na d t memo).2 := by
  intro d
  induction d using Nat.strong_induction_on with
  | _ d ih =>
    match d with
    | 0 =>
      intro t memo hm
      exact ⟨fun h => absurd rfl h, hm⟩
    | k + 1 =>
      intro t memo hm
      have hrec : ∀ m mm, MemoOK mm →
          MemoOK (((fun t' m' => visit env na k t' m') m) mm).2 :=
        fun m mm hmm => (ih k (by omega) m mm hmm).2
      rcases hget : memoGet memo t with - | s
      · rw [visit_succ_miss env na k hget]
        have hb := visitBody_good env na _ (canonPrevAt env na k) t memo H hrec hm
        exact ⟨fun _ => hb.1, hb.2⟩
      · by_cases hs : s = ""
        · subst hs
          rw [visit_succ_empty env na k hget]
          have hb := visitBody_good env na _ (canonPrevAt env na k) t memo H hrec hm
          exact ⟨fun _ => hb.1, hb.2⟩
        · rw [visit_succ_hit env na k hget hs]
          refine ⟨fun _ => ?_, hm⟩
          obtain ⟨kk, hk⟩ := memoGet_value_mem hget
          exact hm _ hk

theorem visitStep_simple (env : Env) (na : Bool) {t : Nat} (h : SimpleType env na t)
    (rv rv' : Nat → Memo → String × Memo) (cp : Option (Nat → String))
    (memo memo' : Memo) :
    visitStep env na rv cp t memo = ((visitStep env na rv' cp t memo').1, memo) := by
  obtain ⟨h1, h2, h3⟩ := h
  unfold visitStep
  simp only [h1, h2, h3, Bool.false_eq_true, if_false]
  by_cases hp : (!(env.ty (resolveId env na t)).props.isEmpty) = true
  · rw [if_pos hp, if_pos hp]
  · rw [if_neg hp, if_neg hp]
    by_cases hc : ((!(env.ty (resolveId env na t)).callSigs.isEmpty ||
        !(env.ty (resolveId env na t)).constructSigs.isEmpty)) = true
    · rw [if_pos hc, if_pos hc]
    · rw [if_neg hc, if_neg hc]

theorem visit_simple (env : Env) (na : Bool) {t : Nat} (h : SimpleType env na t) :
    ∀ (d : Nat) (memo : Memo), memoGet memo t = none →
      visit env na d t memo =
        (canonicalizeType env na d t,
          if d = 0 then memo else memoSet memo t (canonicalizeType env na d t)) := by
  intro d memo hmiss
  match d with
  | 0 => rfl
  | k + 1 =>
    have hmiss0 : memoGet ([] : Memo) t = none := rfl
    have hcan : canonicalizeType env na (k + 1) t =
        (visitStep env na (fun t' m' => visit env na k t' m')
          (canonPrevAt env na k) t []).1 := by
      unfold canonicalizeType
      rw [visit_succ_miss env na k hmiss0]
      rfl
    rw [visit_succ_miss env na k hmiss]
    unfold visitBody
    rw [visitStep_simple env na ⟨h.1, h.2.1, h.2.2⟩ _ (fun t' m' => visit env na k t' m')
      (canonPrevAt env na k) memo []]
    rw [hcan]
    simp

theorem cmp_self (a : DeclarationInfo) : compareDeclarationInfo a a = 0 := by
  unfold compareDeclarationInfo
  rw [if_neg (by simp)]
  omega

theorem BetterEq_refl (a : DeclarationInfo) : BetterEq a a :=
  Or.inr ⟨rfl, by rw [cmp_self]⟩

theorem propCount_obj {c : DeclarationInfo} {cc : String} {cp : List PropertyShape}
    (h : c.shape = .obj cc cp) : propCount c = cp.length := by
  unfold propCount
  rw [h]

theorem Qualifies_obj_iff {target c : DeclarationInfo} {tp : List PropertyShape}
    {cc : String} {cp : List PropertyShape} (h : c.shape = .obj cc cp) :
    Qualifies target tp c ↔
      (c.symId ≠ target.symId ∧ cp ≠ [] ∧ cp.length < tp.length ∧
        isSubset cp tp = true) := by
  constructor
  · rintro ⟨h1, cc', cp', hs, h2, h3, h4⟩
    rw [h] at hs
    injection hs with hs1 hs2
    subst hs2
    exact ⟨h1, h2, h3, h4⟩
  · rintro ⟨h1, h2, h3, h4⟩
    exact ⟨h1, cc, cp, h, h2, h3, h4⟩

theorem Qualifies_other {target c : DeclarationInfo} {tp : List PropertyShape}
    {cc : String} (h : c.shape = .other cc) : ¬ Qualifies target tp c := by
  rintro ⟨-, cc', cp', hs, -⟩
  rw [h] at hs
  cases hs

theorem findBestLoop_spec (target : DeclarationInfo) (tp : List PropertyShape) :
    ∀ (infos : List DeclarationInfo) (best : Option DeclarationInfo),
      (∀ b, best = some b → Qualifies target tp b) →
      ((findBestLoop target tp best infos = none →
          best = none ∧ ∀ c ∈ infos, ¬ Qualifies target tp c) ∧
        (∀ r, findBestLoop target tp best infos = some r →
          (r ∈ infos ∨ best = some r) ∧ Qualifies target tp r ∧
          (∀ c ∈ infos, Qualifies target tp c → BetterEq r c) ∧
          (∀ b, best = some b → BetterEq r b))) := by
  intro infos
  induction infos with
  | nil =>
    intro best hbq
    constructor
    · intro h
      simp only [findBestLoop] at h
      exact ⟨h, by simp⟩
    · intro r h
      simp only [findBestLoop] at h
      refine ⟨Or.inr h, hbq r h, by simp, fun b hb => ?_⟩
      rw [h] at hb
      injection hb with hb
      subst hb
      exact BetterEq_refl r
  | cons c rest IH =>
    intro best hbq
    have skipCase : ¬ Qualifies target tp c →
        ((findBestLoop target tp best rest = none →
            best = none ∧ ∀ x ∈ c :: rest, ¬ Qualifies target tp x) ∧
          (∀ r, findBestLoop target tp best rest = some r →
            (r ∈ c :: rest ∨ best = some r) ∧ Qualifies target tp r ∧
            (∀ x ∈ c :: rest, Qualifies target tp x → BetterEq r x) ∧
            (∀ b, best = some b → BetterEq r b))) := by
      intro hnq
      obtain ⟨ih1, ih2⟩ := IH best hbq
      constructor
      · intro hres
        obtain ⟨hb0, hall⟩ := ih1 hres
        refine ⟨hb0, fun x hx => ?_⟩
        rcases List.mem_cons.mp hx with rfl | hx
        · exact hnq
        · exact hall x hx
      · intro r hres
        obtain ⟨hmem, hQr, hall, hbb⟩ := ih2 r hres
        refine ⟨?_, hQr, ?_, hbb⟩
        · rcases hmem with hmem | hmem
          · exact Or.inl (List.mem_cons_of_mem _ hmem)
          · exact Or.inr hmem
        · intro x hx hQx
          rcases List.mem_cons.mp hx with rfl | hx
          · exact absurd hQx hnq
          · exact hall x hx hQx
    have advance : ∀ (nb : DeclarationInfo), Qualifies target tp nb →
        (nb = c ∨ best = some nb) → BetterEq nb c →
        (∀ b, best = some b → BetterEq nb b) →
        ((findBestLoop target tp (some nb) rest = none →
            best = none ∧ ∀ x ∈ c :: rest, ¬ Qualifies target tp x) ∧
          (∀ r, findBestLoop target tp (some nb) rest = some r →
            (r ∈ c :: rest ∨ best = some r) ∧ Qualifies target tp r ∧
            (∀ x ∈ c :: rest, Qualifies target tp x → BetterEq r x) ∧
            (∀ b, best = some b → BetterEq r b))) := by
      intro nb hQnb hprov hnbc hnbb
      obtain ⟨ih1, ih2⟩ := IH (some nb) (fun b hb => by
        injection hb with hb
        subst hb
        exact hQnb)
      constructor
      · intro hres
        obtain ⟨hcontra, -⟩ := ih1 hres
        exact Option.noConfusion hcontra
      · intro r hres
        obtain ⟨hmem, hQr, hall, hnbr⟩ := ih2 r hres
        have hrnb : BetterEq r nb := hnbr nb rfl
        refine ⟨?_, hQr, ?_, ?_⟩
        · rcases hmem with hmem | hmem
          · exact Or.inl (List.mem_cons_of_mem _ hmem)
          · injection hmem with hmem
            rcases hprov with hp | hp
            · refine Or.inl ?_
              rw [← hmem, hp]
              exact List.mem_cons_self _ _
            · refine Or.inr ?_
              rw [hp, hmem]
        · intro x hx hQx
          rcases List.mem_cons.mp hx with rfl | hx
          · exact BetterEq_trans hrnb hnbc
          · exact hall x hx hQx
        · intro b hb
          exact BetterEq_trans hrnb (hnbb b hb)
    simp only [findBestLoop]
    by_cases hsym : c.symId = target.symId
    · rw [if_pos hsym]
      exact skipCase (fun hq => hq.1 hsym)
    · rw [if_neg hsym]
      cases hcs : c.shape with
      | other cc =>
        exact skipCase (Qualifies_other hcs)
      | obj cc cp =>
        simp only []
        by_cases hlen0 : cp.length = 0
        · rw [if_pos hlen0]
          refine skipCase (fun hq => ?_)
          obtain ⟨-, h2, -⟩ := (Qualifies_obj_iff hcs).mp hq
          exact h2 (List.length_eq_zero.mp hlen0)
        · rw [if_neg hlen0]
          by_cases hge : tp.length ≤ cp.length
          · rw [if_pos hge]
            refine skipCase (fun hq => ?_)
            obtain ⟨-, -, h3, -⟩ := (Qualifies_obj_iff hcs).mp hq
            omega
          · rw [if_neg hge]
            by_cases hsub : isSubset cp tp = true
            · rw [if_neg (by simp [hsub])]
              have hQc : Qualifies target tp c :=
                (Qualifies_obj_iff hcs).mpr
                  ⟨hsym, fun he => hlen0 (by simp [he]), by omega, hsub⟩
              cases hbest : best with
              | none =>
                simp only []
                rw [hbest] at advance
                have hadv := advance c hQc (Or.inl rfl) (BetterEq_refl c)
                  (fun b hb => Option.noConfusion hb)
                exact ⟨fun hres => ⟨trivial, (hadv.1 hres).2⟩, hadv.2⟩
              | some b =>
                simp only []
                rw [hbest] at advance hbq
                have hQb : Qualifies target tp b := hbq b rfl
                obtain ⟨bc, bp, hbshape⟩ : ∃ bc bp, b.shape = .obj bc bp := by
                  obtain ⟨-, bc, bp, hs, -⟩ := hQb
                  exact ⟨bc, bp, hs⟩
                rw [hbshape]
                simp only []
                by_cases hbig : bp.length < cp.length
                · rw [if_pos hbig]
                  refine advance c hQc (Or.inl rfl) (BetterEq_refl c)
                    (fun b' hb' => ?_)
                  injection hb' with hb'
                  subst hb'
                  refine Or.inl ?_
                  rw [propCount_obj hcs, propCount_obj hbshape]
                  omega
                · rw [if_neg hbig]
                  by_cases htie : cp.length = bp.length ∧
                      compareDeclarationInfo c b < 0
                  · rw [if_pos htie]
                    refine advance c hQc (Or.inl rfl) (BetterEq_refl c)
                      (fun b' hb' => ?_)
                    injection hb' with hb'
                    subst hb'
                    refine Or.inr ⟨?_, le_of_lt htie.2⟩
                    rw [propCount_obj hcs, propCount_obj hbshape]
                    omega
                  · rw [if_neg htie]
                    have hbc : BetterEq b c := by
                      unfold BetterEq
                      rw [propCount_obj hcs, propCount_obj hbshape]
                      by_cases heq : cp.length = bp.length
                      · refine Or.inr ⟨by omega, ?_⟩
                        have hnlt : ¬ compareDeclarationInfo c b < 0 :=
                          fun hx => htie ⟨heq, hx⟩
                        rw [cmp_antisymm b c]
                        omega
                      · exact Or.inl (by omega)
                    exact advance b hQb (Or.inr rfl) hbc
                      (fun b' hb' => by
                        injection hb' with hb'
                        subst hb'
                        exact BetterEq_refl b)
            · rw [if_pos (by simp [hsub])]
              refine skipCase (fun hq => ?_)
              obtain ⟨-, -, -, h4⟩ := (Qualifies_obj_iff hcs).mp hq
              exact hsub h4

theorem bucketsAdd_forall (P : DeclarationInfo → Prop) {info : DeclarationInfo}
    {k : String} (hP : P info) :
    ∀ bs, (∀ p ∈ bs, ∀ i ∈ p.2, P i) →
      ∀ p ∈ bucketsAdd bs k info, ∀ i ∈ p.2, P i := by
  intro bs
  induction bs with
  | nil =>
    intro _ p hp i hi
    simp only [bucketsAdd, List.mem_singleton] at hp
    subst hp
    simp only [List.mem_singleton] at hi
    subst hi
    exact hP
  | cons q rest IH =>
    obtain ⟨k', l⟩ := q
    intro hall p hp i hi
    simp only [bucketsAdd] at hp
    by_cases hk : k' = k
    · rw [if_pos hk] at hp
      rcases List.mem_cons.mp hp with rfl | hp
      · rcases List.mem_append.mp hi with hi | hi
        · exact hall (k', l) (List.mem_cons_self _ _) i hi
        · simp only [List.mem_singleton] at hi
          subst hi
          exact hP
      · exact hall p (List.mem_cons_of_mem _ hp) i hi
    · rw [if_neg hk] at hp
      rcases List.mem_cons.mp hp with rfl | hp
      · exact hall (k', l) (List.mem_cons_self _ _) i hi
      · exact IH (fun p' hp' => hall p' (List.mem_cons_of_mem _ hp')) p hp i hi

theorem programStep_invariant (env : Env)
    (st : List (String × List DeclarationInfo) × List DeclarationInfo)
    (n : DeclNode)
    (h1 : ∀ p ∈ st.1, ∀ i ∈ p.2, shapeIsObject i.shape = true)
    (h2 : ∀ i ∈ st.2, i.isInterface = true) :
    (∀ p ∈ (programStep env st n).1, ∀ i ∈ p.2, shapeIsObject i.shape = true) ∧
      (∀ i ∈ (programStep env st n).2, i.isInterface = true) := by
  unfold programStep
  by_cases hskip : shouldSkipSourceFile n = true
  · rw [if_pos hskip]
    exact ⟨h1, h2⟩
  · rw [if_neg hskip]
    by_cases hname : (!n.hasName) = true
    · rw [if_pos hname]
      exact ⟨h1, h2⟩
    · rw [if_neg hname]
      rcases n.symId with - | sid
      · exact ⟨h1, h2⟩
      · simp only []
        rcases hdesc : describeDeclaration env true 8 { declTy := n.declTy }
          with - | shape
        · exact ⟨h1, h2⟩
        · simp only []
          constructor
          · cases shape with
            | obj c props =>
              simp only []
              refine bucketsAdd_forall (fun i => shapeIsObject i.shape = true)
                ?_ st.1 h1
              rfl
            | other c =>
              exact h1
          · intro i hi
            by_cases hif : n.isInterface = true
            · rw [if_pos hif] at hi
              rcases List.mem_append.mp hi with hi | hi
              · exact h2 i hi
              · simp only [List.mem_singleton] at hi
                subst hi
                exact hif
            · rw [if_neg hif] at hi
              exact h2 i hi

theorem foldl_programStep_invariant (env : Env) :
    ∀ (nodes : List DeclNode)
      (st : List (String × List DeclarationInfo) × List DeclarationInfo),
      (∀ p ∈ st.1, ∀ i ∈ p.2, shapeIsObject i.shape = true) →
      (∀ i ∈ st.2, i.isInterface = true) →
      (∀ p ∈ (nodes.foldl (programStep env) st).1, ∀ i ∈ p.2,
          shapeIsObject i.shape = true) ∧
        (∀ i ∈ (nodes.foldl (programStep env) st).2, i.isInterface = true)
  | [], _, h1, h2 => ⟨h1, h2⟩
  | n :: ns, st, h1, h2 => by
    simp only [List.foldl]
    have hstep := programStep_invariant env st n h1 h2
    exact foldl_programStep_invariant env ns (programStep env st n) hstep.1 hstep.2

theorem getD_all (P : TypeNode → Prop) :
    ∀ (l : List TypeNode) (id : Nat) (d : TypeNode),
      (∀ nd ∈ l, P nd) → P d → P (l.getD id d)
  | [], 0, _, _, hd => hd
  | [], _ + 1, _, _, hd => hd
  | nd :: _, 0, _, hall, _ => hall nd (List.mem_cons_self _ _)
  | _ :: rest, id + 1, d, hall, hd =>
    getD_all P rest id d (fun x hx => hall x (List.mem_cons_of_mem _ hx)) hd

theorem EnvTextOK_of_all (env : Env)
    (h : env.types.all (fun nd => !(nd.text == "#DepthLimit")) = true) :
    EnvTextOK env := by
  intro id
  unfold Env.ty
  exact getD_all (fun nd => nd.text ≠ "#DepthLimit") env.types id defaultTypeNode
    (fun nd hnd => by simpa using List.all_eq_true.mp h nd hnd) (by decide)

/-- C9: when the target's shape is not an object shape, or is an object shape
with an empty property list, `findBestInterfaceBase` returns `none` for every
candidate list, without examining any candidate — a normal outcome, not an
error. -/
theorem claim_C9 (target : DeclarationInfo)
    (h : shapeIsObject target.shape = false ∨ ∃ c, target.shape = .obj c []) :
    ∀ infos, findBestInterfaceBase target infos = none := by
  intro infos
  unfold findBestInterfaceBase
  cases hs : target.shape with
  | other c => rfl
  | obj c tp =>
    simp only []
    rcases h with h | ⟨c', h⟩
    · rw [hs] at h
      simp [shapeIsObject] at h
    · rw [hs] at h
      injection h with h1 h2
      rw [if_pos (by rw [h2]; rfl)]

theorem claim_C9_witness :
    (shapeIsObject otherInfo.shape = false ∨ ∃ c, otherInfo.shape = .obj c []) ∧
      findBestInterfaceBase otherInfo [baseInfo, derivedInfo] = none :=
  ⟨Or.inl rfl, claim_C9 otherInfo (Or.inl rfl) [baseInfo, derivedInfo]⟩

/-- C10: with a depth limit of at most 1, `describeDeclaration` on any symbol
with a declaration yields an `OtherShape` (never an `ObjectShape`), even when
the type has own properties, because the property list is computed at
`depthLimit - 1 <= 0` and `collectProperties` returns the empty list whenever
its budget is exhausted. -/
theorem claim_C10 (env : Env) (na : Bool) (sym : SymbolRef) (t : Nat)
    (hd : sym.declTy = some t) (d : Nat) (hdep : d ≤ 1) :
    describeDeclaration env na d sym =
      some (.other (canonicalizeType env na d t)) ∧
      collectProperties env na (d - 1) t = [] := by
  have hz : d - 1 = 0 := by omega
  have hcp : collectProperties env na (d - 1) t = [] := by
    rw [hz]
    rfl
  refine ⟨?_, hcp⟩
  unfold describeDeclaration
  rw [hd]
  simp only [hcp, List.length_nil, ne_eq, not_true_eq_false]
  rw [if_neg (by simp)]

theorem claim_C10_witness :
    (SymbolRef.mk (some 2)).declTy = some 2 ∧ (1 : Nat) ≤ 1 ∧
      (describeDeclaration envTwoProps true 1 ⟨some 2⟩ =
          some (.other (canonicalizeType envTwoProps true 1 2)) ∧
        collectProperties envTwoProps true (1 - 1) 2 = []) ∧
      (envTwoProps.ty 2).props ≠ [] :=
  ⟨rfl, by decide, claim_C10 envTwoProps true ⟨some 2⟩ 2 rfl 1 (by decide),
    by decide⟩

/-- C5: `collectProperties` always returns its facts sorted by name ascending
(in the modelled lexical order), and consequently the object type with
properties declared `[b, a]` canonicalizes exactly like the one declared
`[a, b]` with the same names, types and modifiers. -/
theorem claim_C5 :
    (∀ (env : Env) (na : Bool) (d t : Nat),
        List.Pairwise (fun a b => strLeB a.name b.name = true)
          (collectProperties env na d t)) ∧
      canonicalizeType envTwoProps true 8 2 = canonicalizeType envTwoProps true 8 3 := by
  constructor
  · intro env na d t
    match d with
    | 0 => exact List.Pairwise.nil
    | e + 1 =>
      unfold collectProperties collectPropertiesCore
      simp only []
      by_cases hp : (env.ty t).props.isEmpty = true
      · rw [if_pos hp]
        exact List.Pairwise.nil
      · rw [if_neg hp]
        exact pairwise_sortBy (fun (a b : PropertyShape) => strLeB a.name b.name)
          (fun x y => strLeB_total x.name y.name)
          (fun x y z h1 h2 => strLeB_trans h1 h2) _
  · rfl

/-- C7, counterexample to the claim as stated: `interfaceInfos` may contain a
record whose shape is an `OtherShape` — an empty interface is indexed as a
base candidate although its shape is not an object shape. -/
theorem claim_C7_cex :
    ¬ (∀ i ∈ (getProgramState envEmptyIface nodesEmptyIface).interfaceInfos,
        shapeIsObject i.shape = true) := by decide

/-- C7, amended: every record in a `byCanonical` bucket has an `ObjectShape`,
and every record in the base-candidate list `interfaceInfos` comes from an
interface declaration (never an alias); interfaces are added to
`interfaceInfos` regardless of their shape, so `OtherShape` records can
appear there. -/
theorem claim_C7 (env : Env) (nodes : List DeclNode) :
    (∀ p ∈ (getProgramState env nodes).byCanonical, ∀ i ∈ p.2,
        shapeIsObject i.shape = true) ∧
      (∀ i ∈ (getProgramState env nodes).interfaceInfos, i.isInterface = true) := by
  obtain ⟨h1, h2⟩ := foldl_programStep_invariant env nodes ([], [])
    (by intro p hp; cases hp) (by intro i hi; cases hi)
  constructor
  · intro p hp i hi
    unfold getProgramState at hp
    simp only [] at hp
    obtain ⟨q, hq, rfl⟩ := List.mem_map.mp hp
    simp only [] at hi
    exact h1 q hq i ((mem_sortBy _ _ _).mp hi)
  · intro i hi
    unfold getProgramState at hi
    simp only [] at hi
    exact h2 i ((mem_sortBy _ _ _).mp hi)

theorem claim_C7_witness :
    ({ symId := 1, isInterface := true, filePath := "file1.ts", pos := 4,
        shape := .other "E" } : DeclarationInfo).isInterface = true :=
  (claim_C7 envEmptyIface nodesEmptyIface).2 _ (by decide)

/-- C8: after `getProgramState`, every `byCanonical` bucket and the
`interfaceInfos` list are sorted by `compareDeclarationInfo` (file path
ascending, then position ascending); in particular three identically-shaped
declarations walked as `file1.ts:10`, `file2.ts:5`, `file1.ts:50` appear in
their bucket (and in `interfaceInfos`) in the order `file1.ts:10`,
`file1.ts:50`, `file2.ts:5`, so the earliest is `file1.ts:10`. -/
theorem claim_C8 :
    (∀ (env : Env) (nodes : List DeclNode),
        (∀ p ∈ (getProgramState env nodes).byCanonical,
            List.Pairwise (fun a b => declLE a b = true) p.2) ∧
          List.Pairwise (fun a b => declLE a b = true)
            (getProgramState env nodes).interfaceInfos) ∧
      ((getProgramState envTwoProps nodesThreeFiles).byCanonical.map
          (fun p => p.2.map (fun i => (i.filePath, i.pos))) =
        [[("file1.ts", 10), ("file1.ts", 50), ("file2.ts", 5)]]) ∧
      ((getProgramState envTwoProps nodesThreeFiles).interfaceInfos.map
          (fun i => (i.filePath, i.pos)) =
        [("file1.ts", 10), ("file1.ts", 50), ("file2.ts", 5)]) := by
  refine ⟨fun env nodes => ⟨?_, ?_⟩, by decide, by decide⟩
  · intro p hp
    unfold getProgramState at hp
    simp only [] at hp
    obtain ⟨q, hq, rfl⟩ := List.mem_map.mp hp
    exact pairwise_sortBy declLE declLE_total declLE_trans q.2
  · unfold getProgramState
    simp only []
    exact pairwise_sortBy declLE declLE_total declLE_trans _

theorem claim_C8_witness :
    List.Pairwise (fun a b => declLE a b = true)
      [({ symId := 1, isInterface := true, filePath := "file1.ts", pos := 10,
          shape := .obj "object\x7ba:string,b?:number\x7d"
            [⟨"a", false, false, "string"⟩, ⟨"b", true, false, "number"⟩] } :
          DeclarationInfo),
        { symId := 3, isInterface := true, filePath := "file1.ts", pos := 50,
          shape := .obj "object\x7ba:string,b?:number\x7d"
            [⟨"a", false, false, "string"⟩, ⟨"b", true, false, "number"⟩] },
        { symId := 2, isInterface := true, filePath := "file2.ts", pos := 5,
          shape := .obj "object\x7ba:string,b?:number\x7d"
            [⟨"a", false, false, "string"⟩, ⟨"b", true, false, "number"⟩] }] :=
  (claim_C8.1 envTwoProps nodesThreeFiles).1
    ("object\x7ba:string,b?:number\x7d",
      [{ symId := 1, isInterface := true, filePath := "file1.ts", pos := 10,
          shape := .obj "object\x7ba:string,b?:number\x7d"
            [⟨"a", false, false, "string"⟩, ⟨"b", true, false, "number"⟩] },
        { symId := 3, isInterface := true, filePath := "file1.ts", pos := 50,
          shape := .obj "object\x7ba:string,b?:number\x7d"
            [⟨"a", false, false, "string"⟩, ⟨"b", true, false, "number"⟩] },
        { symId := 2, isInterface := true, filePath := "file2.ts", pos := 5,
          shape := .obj "object\x7ba:string,b?:number\x7d"
            [⟨"a", false, false, "string"⟩, ⟨"b", true, false, "number"⟩] }])
    (by decide)

/-- C3: the canonicalizer returns the sentinel `#DepthLimit` exactly when the
remaining depth budget is exhausted (for any table whose fallback renderings
are not the bare sentinel), and a self-referential type (`T = \x7b a: T \x7d`)
canonicalizes to a finite string for every depth limit ≥ 1, the sentinel
marking exactly the points where the canonicalizer was entered with an
exhausted budget (at odd limits the property extractor's own guard stops
first and no sentinel appears). -/
theorem claim_C3 :
    (∀ (env : Env) (na : Bool), EnvTextOK env →
        ∀ (d t : Nat), (canonicalizeType env na d t = "#DepthLimit" ↔ d ≤ 0)) ∧
      (∀ d, canonicalizeType envSelfRef true (d + 1) 0 ≠ "#DepthLimit") ∧
      canonicalizeType envSelfRef true 2 0 = "object\x7ba:#DepthLimit\x7d" ∧
      canonicalizeType envSelfRef true 3 0 = "object\x7ba:object\x7b\x7d\x7d" ∧
      canonicalizeType envSelfRef true 4 0 =
        "object\x7ba:object\x7ba:#DepthLimit\x7d\x7d" := by
  have hmain : ∀ (env : Env) (na : Bool), EnvTextOK env →
      ∀ (d t : Nat), (canonicalizeType env na d t = "#DepthLimit" ↔ d ≤ 0) := by
    intro env na H d t
    constructor
    · intro hsent
      by_contra hd
      exact (visit_good env na H d t [] (by intro p hp; cases hp)).1
        (by omega) hsent
    · intro hd
      have hz : d = 0 := by omega
      subst hz
      rfl
  refine ⟨hmain, ?_, by decide, by decide, by decide⟩
  intro d hsent
  have := (hmain envSelfRef true
    (EnvTextOK_of_all envSelfRef (by decide)) (d + 1) 0).mp hsent
  omega

theorem claim_C3_witness :
    canonicalizeType envSelfRef true 3 0 ≠ "#DepthLimit" := by
  intro h
  have := (claim_C3.1 envSelfRef true
    (EnvTextOK_of_all envSelfRef (by decide)) 3 0).mp h
  omega

/-- C2, counterexample to the claim as stated: when the self-referential type
0 of `envSelfRef` is re-encountered inside its own traversal (as the type of
its property `a`), it is re-canonicalized by a fresh `visit` starting from the
empty memo — in which type 0 has no entry — and that re-entered recursion runs
until the depth limit produces the sentinel.  The memo serves no in-progress
result; only the depth limit stops the cycle. -/
theorem claim_C2_cex :
    canonicalizeType envSelfRef true 4 0 =
        "object\x7ba:" ++ (visit envSelfRef true 2 0 []).1 ++ "\x7d" ∧
      memoGet [] 0 = none ∧
      (visit envSelfRef true 2 0 []).1 = "object\x7ba:#DepthLimit\x7d" :=
  ⟨by decide, rfl, by decide⟩

/-- C2, amended: within one traversal the memo holds only completed results —
a lookup can only return a value stored when some earlier visit finished
(stores happen after classification, and a visit that begins with the type
absent ends with its completed key stored); at an exhausted budget the memo is
bypassed entirely; and object-property recursion starts fresh traversals, so a
self-referential type re-enters the recursion and is kept safe by the depth
limit alone, as the sentinel inside its key shows. -/
theorem claim_C2 :
    (∀ (env : Env) (na : Bool) (d t : Nat) (memo : Memo) (s : String),
        memoGet memo t = some s → s ≠ "" →
          visit env na (d + 1) t memo = (s, memo)) ∧
      (∀ (env : Env) (na : Bool) (d t : Nat) (memo : Memo),
        memoGet memo t = none →
          memoGet (visit env na (d + 1) t memo).2 t =
            some ((visit env na (d + 1) t memo).1)) ∧
      (∀ (env : Env) (na : Bool) (t : Nat) (memo : Memo),
        visit env na 0 t memo = ("#DepthLimit", memo)) ∧
      canonicalizeType envSelfRef true 4 0 =
        "object\x7ba:" ++ canonicalizeType envSelfRef true 2 0 ++ "\x7d" ∧
      canonicalizeType envSelfRef true 2 0 = "object\x7ba:#DepthLimit\x7d" := by
  refine ⟨?_, ?_, fun env na t memo => rfl, by decide, by decide⟩
  · intro env na d t memo s h hs
    exact visit_succ_hit env na d h hs
  · intro env na d t memo h
    rw [visit_succ_miss env na d h]
    unfold visitBody
    exact memoGet_set_self _ _ _

theorem claim_C2_witness :
    visit envSelfRef true 3 5 [(5, "cached")] = ("cached", [(5, "cached")]) :=
  claim_C2.1 envSelfRef true 2 5 [(5, "cached")] "cached" rfl (by decide)

/-- C6, counterexample to the claim as stated: a type with only a numeric
index signature (and no string index signature) is not classified as an
indexed object — the branch tests only the string index — so it falls through
to the textual fallback instead of producing an `object[string:...;number:...]`
key. -/
theorem claim_C6_cex :
    (envNumIndex.ty 0).numberIndex.isSome = true ∧
      (envNumIndex.ty 0).stringIndex = none ∧
      canonicalizeType envNumIndex true 8 0 = "\x7b [x: number]: string; \x7d" ∧
      (canonicalizeType envNumIndex true 8 0).data.take 7 ≠ "object[".data := by
  decide

/-- C6, amended: a type whose resolved form has a *string* index signature
(the condition the code actually tests) is classified as an indexed object
and keyed `object[string:<k>;number:<k>]<props>`, where the string index key,
the numeric index key (empty when there is no numeric index signature; its
visit threads the memo left by the string index visit) and the property
rendering are all computed at `depthLimit - 1`. -/
theorem claim_C6 (env : Env) (na : Bool) (d t st : Nat)
    (hres : resolveId env na t = t)
    (hu : (env.ty t).isUnion = false)
    (hi : (env.ty t).isIntersection = false)
    (hs : (env.ty t).stringIndex = some st) :
    canonicalizeType env na (d + 1) t =
      "object[string:" ++ (visit env na d st []).1 ++ ";number:" ++
        (match (env.ty t).numberIndex with
          | some nt => (visit env na d nt (visit env na d st []).2).1
          | none => "") ++ "]" ++
        renderProps (collectProperties env na d t) := by
  unfold canonicalizeType
  have hmiss : memoGet ([] : Memo) t = none := rfl
  rw [visit_succ_miss env na d hmiss]
  unfold visitBody
  simp only [visitStep, hres, hu, hi, hs, Bool.false_eq_true, if_false]
  rcases hn : (env.ty t).numberIndex with - | nt
  · simp only [hn]
    cases d <;> rfl
  · simp only [hn]
    cases d <;> rfl

theorem claim_C6_witness :
    resolveId envBothIndex true 0 = 0 ∧
      (envBothIndex.ty 0).isUnion = false ∧
      (envBothIndex.ty 0).isIntersection = false ∧
      (envBothIndex.ty 0).stringIndex = some 1 ∧
      canonicalizeType envBothIndex true 8 0 =
        "object[string:" ++ (visit envBothIndex true 7 1 []).1 ++ ";number:" ++
          (match (envBothIndex.ty 0).numberIndex with
            | some nt => (visit envBothIndex true 7 nt
                (visit envBothIndex true 7 1 []).2).1
            | none => "") ++ "]" ++
          renderProps (collectProperties envBothIndex true 7 0) :=
  ⟨rfl, rfl, rfl, rfl, claim_C6 envBothIndex true 7 0 1 rfl rfl rfl rfl⟩

/-- C4, counterexample to the claim as stated: types 3 and 4 of
`envUnionMemo` are unions of the same two members (an intersection wrapping
`union<0>`, and `union<0>` itself) in the two declaration orders, yet at depth
limit 3 they canonicalize differently: the member visited first is memoized at
its own depth, and the shared traversal memo replays that key for the other
member at a different depth, so truncation differs with visit order. -/
theorem claim_C4_cex :
    (envUnionMemo.ty 3).members = [2, 1] ∧
      (envUnionMemo.ty 4).members = [1, 2] ∧
      canonicalizeType envUnionMemo true 3 3 ≠ canonicalizeType envUnionMemo true 3 4 := by
  decide

/-- C4, amended: union (and intersection) member keys are computed at
`depthLimit - 1`, sorted lexicographically and joined, so the key is
independent of member declaration order whenever neither member recurses
through the shared traversal memo — i.e. when each member's resolved form is
not itself a union, an intersection, or string-indexed.  (In general the
shared memo can replay a member key computed at a different depth, and
order-independence fails — see the counterexample.) -/
theorem claim_C4 (env : Env) (na : Bool) (d : Nat) (u1 u2 a b : Nat)
    (hr1 : resolveId env na u1 = u1) (hr2 : resolveId env na u2 = u2)
    (hm1 : (env.ty u1).members = [a, b]) (hm2 : (env.ty u2).members = [b, a])
    (hkind : ((env.ty u1).isUnion = true ∧ (env.ty u2).isUnion = true) ∨
      ((env.ty u1).isUnion = false ∧ (env.ty u2).isUnion = false ∧
        (env.ty u1).isIntersection = true ∧ (env.ty u2).isIntersection = true))
    (hab : a ≠ b) (hsa : SimpleType env na a) (hsb : SimpleType env na b) :
    canonicalizeType env na d u1 = canonicalizeType env na d u2 := by
  match d with
  | 0 => rfl
  | e + 1 =>
    have hfold : ∀ (x y : Nat), x ≠ y → SimpleType env na x → SimpleType env na y →
        ([x, y].foldl (visitFoldStep (fun t' m' => visit env na e t' m'))
            ([], ([] : Memo))).1 =
          [canonicalizeType env na e x, canonicalizeType env na e y] := by
      intro x y hxy hsx hsy
      simp only [List.foldl, visitFoldStep]
      rw [visit_simple env na hsx e [] rfl]
      have hmiss : memoGet
          (if e = 0 then ([] : Memo)
            else memoSet [] x (canonicalizeType env na e x)) y = none := by
        by_cases he : e = 0
        · rw [if_pos he]
          rfl
        · rw [if_neg he]
          rw [memoGet_set_other [] _ hxy]
          rfl
      rw [visit_simple env na hsy e _ hmiss]
      rfl
    have hmiss1 : memoGet ([] : Memo) u1 = none := rfl
    have hmiss2 : memoGet ([] : Memo) u2 = none := rfl
    unfold canonicalizeType
    rw [visit_succ_miss env na e hmiss1, visit_succ_miss env na e hmiss2]
    unfold visitBody
    simp only []
    rcases hkind with ⟨hk1, hk2⟩ | ⟨hk1, hk2, hk3, hk4⟩
    · simp only [visitStep, hr1, hr2, hk1, hk2, hm1, hm2, if_true]
      rw [hfold a b hab hsa hsb, hfold b a (fun h => hab h.symm) hsb hsa]
      rw [sortBy_pair_comm strLeB strLeB_total
        (fun x y h1 h2 => strLeB_antisymm h1 h2)
        (canonicalizeType env na e a) (canonicalizeType env na e b)]
    · simp only [visitStep, hr1, hr2, hk1, hk2, hk3, hk4, Bool.false_eq_true,
        if_false, if_true, hm1, hm2]
      rw [hfold a b hab hsa hsb, hfold b a (fun h => hab h.symm) hsb hsa]
      rw [sortBy_pair_comm strLeB strLeB_total
        (fun x y h1 h2 => strLeB_antisymm h1 h2)
        (canonicalizeType env na e a) (canonicalizeType env na e b)]

theorem claim_C4_witness :
    canonicalizeType envUnionSimple true 8 2 = canonicalizeType envUnionSimple true 8 3 :=
  claim_C4 envUnionSimple true 8 2 3 0 1 rfl rfl rfl rfl
    (Or.inl ⟨rfl, rfl⟩) (by decide) ⟨rfl, rfl, rfl⟩ ⟨rfl, rfl, rfl⟩

/-- C1: for a target with a non-empty object shape, `findBestInterfaceBase`
returns `none` exactly when no candidate qualifies (different symbol, object
shape, non-empty property list strictly smaller than the target's, and every
fact field-for-field present in the target's list), and whenever it returns a
candidate, that candidate is a qualifying element of the list that maximizes
the property count, remaining ties broken by declaration order (file path
ascending, then position ascending — earliest wins). -/
theorem claim_C1 (target : DeclarationInfo) (infos : List DeclarationInfo)
    (tc : String) (tp : List PropertyShape)
    (ht : target.shape = .obj tc tp) (hne : tp ≠ []) :
    (findBestInterfaceBase target infos = none ↔
        ∀ c ∈ infos, ¬ Qualifies target tp c) ∧
      (∀ r, findBestInterfaceBase target infos = some r →
        r ∈ infos ∧ Qualifies target tp r ∧
          ∀ c ∈ infos, Qualifies target tp c → BetterEq r c) := by
  have hspec := findBestLoop_spec target tp infos none
    (fun b hb => Option.noConfusion hb)
  have hfb : findBestInterfaceBase target infos =
      findBestLoop target tp none infos := by
    unfold findBestInterfaceBase
    rw [ht]
    simp only []
    rw [if_neg (fun h => hne (List.length_eq_zero.mp h))]
  constructor
  · constructor
    · intro h
      rw [hfb] at h
      exact (hspec.1 h).2
    · intro hall
      rw [hfb]
      rcases hres : findBestLoop target tp none infos with - | r
      · rfl
      · obtain ⟨hmem, hQr, -, -⟩ := hspec.2 r hres
        rcases hmem with hmem | hmem
        · exact absurd hQr (hall r hmem)
        · exact Option.noConfusion hmem
  · intro r hr
    rw [hfb] at hr
    obtain ⟨hmem, hQr, hallr, -⟩ := hspec.2 r hr
    rcases hmem with hmem | hmem
    · exact ⟨hmem, hQr, hallr⟩
    · exact Option.noConfusion hmem

theorem claim_C1_witness :
    findBestInterfaceBase derivedInfo [baseInfo, otherInfo] = some baseInfo ∧
      (baseInfo ∈ [baseInfo, otherInfo] ∧
        Qualifies derivedInfo
          [⟨"a", false, false, "string"⟩, ⟨"b", false, false, "number"⟩]
          baseInfo ∧
        ∀ c ∈ [baseInfo, otherInfo],
          Qualifies derivedInfo
            [⟨"a", false, false, "string"⟩, ⟨"b", false, false, "number"⟩] c →
            BetterEq baseInfo c) :=
  ⟨by decide,
    (claim_C1 derivedInfo [baseInfo, otherInfo]
        "object\x7ba:string,b:number\x7d"
        [⟨"a", false, false, "string"⟩, ⟨"b", false, false, "number"⟩]
        rfl (by decide)).2 baseInfo (by decide)⟩
